import Mathlib

/-!
Verification of the CSS selector builder (`cssSelectorBuilder`) of this repository.

The builder is a shared template object with six fragment fields (`elementStr`,
`idStr`, `classesStr`, `attrStr`, `pseudoClassesStr`, `pseudoElementStr`) and a
`partsOrder` array. Each append method (`element`, `id`, `class`, `attr`,
`pseudoClass`, `pseudoElement`) first runs a duplicate guard (for the three
singular kinds), then either mutates the receiver in place (when its `stringify`
output is non-empty) or works on a freshly built object (`buildNewObj`, all
fields reset). The fragment is stored, `partsOrder` updated and `checkElemOrder`
run, all inside `processElement`. `combine` builds a node holding the string
computed at call time; `stringify` joins the six fragments with newline
separators and then removes every newline.

The embedding below is a direct translation of that object. JavaScript string
truthiness is modelled as inequality with `""`; raised exceptions are modelled
as `Except.error` carrying the message string; the in-place mutation of the
receiver is tracked explicitly (`applyPart` returns both the call's result and
the receiver's state after the call, and `applyAppendHeap` replays the calls on
an explicit heap of objects to reason about aliasing between chains).
-/

namespace CssSelectorBuilder

deriving instance DecidableEq for Except

/-- The six selector part kinds handled by the builder. The source stores them as
the strings `element`, `id`, `class`, `attr`, `pseudoClass`, `pseudoElement`
inside `partsOrder`; `class` is a Lean keyword, so that constructor is `cls`. -/
inductive Kind where
  | element
  | id
  | cls
  | attr
  | pseudoClass
  | pseudoElement
deriving DecidableEq, Repr, Fintype

/-- Source `correctOrder`: the canonical order of selector part kinds. -/
def correctOrder : List Kind :=
  [Kind.element, Kind.id, Kind.cls, Kind.attr, Kind.pseudoClass, Kind.pseudoElement]

/-- Canonical rank of a kind: its index in `correctOrder`. -/
def rank : Kind → Nat
  | Kind.element => 0
  | Kind.id => 1
  | Kind.cls => 2
  | Kind.attr => 3
  | Kind.pseudoClass => 4
  | Kind.pseudoElement => 5

/-- The singular kinds: the three methods carrying the duplicate guard
(`element`, `id`, `pseudoElement`). -/
def singular : Kind → Bool
  | Kind.element => true
  | Kind.id => true
  | Kind.pseudoElement => true
  | _ => false

/-- State of one selector object: the six accumulated fragment strings plus the
`partsOrder` list tracking the appended kinds. -/
structure SelState where
  elementStr : String
  idStr : String
  classesStr : String
  attrStr : String
  pseudoClassesStr : String
  pseudoElementStr : String
  partsOrder : List Kind
deriving DecidableEq, Repr

/-- The `cssSelectorBuilder` template (and the state of every `buildNewObj`
result): all fragments empty, empty `partsOrder`. -/
def emptySel : SelState :=
  { elementStr := "", idStr := "", classesStr := "", attrStr := "",
    pseudoClassesStr := "", pseudoElementStr := "", partsOrder := [] }

/-- The fragment field associated with a kind (the source's `propLib` lookup). -/
def fragmentOf (s : SelState) : Kind → String
  | Kind.element => s.elementStr
  | Kind.id => s.idStr
  | Kind.cls => s.classesStr
  | Kind.attr => s.attrStr
  | Kind.pseudoClass => s.pseudoClassesStr
  | Kind.pseudoElement => s.pseudoElementStr

/-- Assignment `this[propName] = value` for the field associated with a kind. -/
def setField (s : SelState) : Kind → String → SelState
  | Kind.element, t => { s with elementStr := t }
  | Kind.id, t => { s with idStr := t }
  | Kind.cls, t => { s with classesStr := t }
  | Kind.attr, t => { s with attrStr := t }
  | Kind.pseudoClass, t => { s with pseudoClassesStr := t }
  | Kind.pseudoElement, t => { s with pseudoElementStr := t }

/-- JavaScript `str.replaceAll('\n', '')`. -/
def removeNewlines (t : String) : String :=
  String.mk (t.data.filter (fun c => c != '\n'))

/-- Source `stringify`: the template literal joining the six fragments with newline
separators, with every newline then removed. -/
def stringify (s : SelState) : String :=
  removeNewlines ("\n" ++ s.elementStr ++ "\n" ++ s.idStr ++ "\n" ++ s.classesStr
    ++ "\n" ++ s.attrStr ++ "\n" ++ s.pseudoClassesStr ++ "\n" ++ s.pseudoElementStr)

/-- Modelled from the spec (for comparison with `stringify`): serialize as the
plain concatenation, in canonical kind order, of the six rendered fragments,
with no separators. -/
def specConcat (s : SelState) : String :=
  s.elementStr ++ s.idStr ++ s.classesStr ++ s.attrStr
    ++ s.pseudoClassesStr ++ s.pseudoElementStr

/-- Source `addPartToOrder`: push the kind unless it already sits at the end of
`partsOrder` (JavaScript `at(-1) !== partName`). -/
def addPartToOrder (po : List Kind) (k : Kind) : List Kind :=
  if po.getLast? = some k then po else po ++ [k]

/-- Source `checkElemOrder`: the last entry of `partsOrder` is the current element; every
earlier entry must lie strictly before it in `correctOrder` (JavaScript
`slice(0, -1)`, `slice(0, indexOf)`, `every`/`includes`). -/
def checkElemOrder (po : List Kind) : Bool :=
  match po.getLast? with
  | none => true
  | some currentElement =>
    po.dropLast.all (fun item =>
      (correctOrder.take (correctOrder.indexOf currentElement)).contains item)

/-- JavaScript `str.slice(1, -1)`: drop the first and the last character. -/
def jsSliceInner (t : String) : String := String.mk (t.data.drop 1).dropLast

/-- JavaScript `String.prototype.split` with a one-character separator. -/
def splitOnChar (c : Char) : List Char → List (List Char)
  | [] => [[]]
  | x :: xs =>
    match splitOnChar c xs with
    | [] => [[]]
    | y :: ys => if x = c then [] :: y :: ys else (x :: y) :: ys

/-- The `key=value` text built by the `attr` case: `partValue.split('=')` is
destructured into two names, so only the first two pieces are kept; a missing
second piece is `undefined` and stringifies to the literal text `undefined`. -/
def renderAttrPiece (v : String) : String :=
  match splitOnChar '=' v.data with
  | [] => ""
  | [key] => String.mk key ++ "=undefined"
  | key :: value :: _ => String.mk key ++ "=" ++ String.mk value

/-- The `currentValue` computed by `processElement` for each part name. -/
def renderValue (s : SelState) (k : Kind) (v : String) : String :=
  match k with
  | Kind.element => v
  | Kind.id => "#" ++ v
  | Kind.cls => s.classesStr ++ "." ++ v
  | Kind.attr =>
    let currentAttr := jsSliceInner s.attrStr
    if currentAttr ≠ "" then "[" ++ currentAttr ++ " " ++ renderAttrPiece v ++ "]"
    else "[" ++ renderAttrPiece v ++ "]"
  | Kind.pseudoClass => s.pseudoClassesStr ++ ":" ++ v
  | Kind.pseudoElement => s.pseudoElementStr ++ "::" ++ v

/-- Source `occurExeption` message, with the source's spelling. -/
def occurExeption : String :=
  "Element, id and pseudo-element should not occur more then one time inside the selector"

/-- Source `rangeExeption` message. -/
def rangeExeption : String :=
  "Selector parts should be arranged in the following order: element, id, class, attribute, pseudo-class, pseudo-element"

/-- Source `processElement`: store the rendered fragment, update `partsOrder`, then run
`checkElemOrder`. Returns the state after the call together with the raised
message, if any; the field assignment and the `partsOrder` update happen before
the order check, exactly as in the source. -/
def processElement (s : SelState) (k : Kind) (v : String) : SelState × Option String :=
  let s1 := setField s k (renderValue s k v)
  let s2 := { s1 with partsOrder := addPartToOrder s1.partsOrder k }
  (s2, if checkElemOrder s2.partsOrder then none else some rangeExeption)

/-- The duplicate guard at the top of `element`, `id` and `pseudoElement`
(JavaScript truthiness of the stored fragment). -/
def dupGuard (s : SelState) (k : Kind) : Bool :=
  match k with
  | Kind.element => s.elementStr != ""
  | Kind.id => s.idStr != ""
  | Kind.pseudoElement => s.pseudoElementStr != ""
  | _ => false

/-- One append call. First component: the call's outcome (the returned object's
state, or the raised message). Second component: the receiver object's state
after the call. When the receiver's `stringify` output is non-empty the call
mutates the receiver in place (also when the order check then raises); when it
is empty the call works on a freshly built object (`buildNewObj`) and the
receiver is left untouched. -/
def applyPart (s : SelState) (k : Kind) (v : String) : Except String SelState × SelState :=
  if dupGuard s k then (Except.error occurExeption, s)
  else if stringify s ≠ "" then
    match processElement s k v with
    | (s', none) => (Except.ok s', s')
    | (s', some m) => (Except.error m, s')
  else
    match processElement emptySel k v with
    | (s', none) => (Except.ok s', s)
    | (_, some m) => (Except.error m, s)

/-- The state returned by one append call, or the raised message. -/
def append (s : SelState) (k : Kind) (v : String) : Except String SelState :=
  (applyPart s k v).1

/-- The receiver's state after one append call. -/
def receiverAfter (s : SelState) (k : Kind) (v : String) : SelState :=
  (applyPart s k v).2

/-- Run a chain of append calls, threading the returned object. -/
def runChain (s : SelState) : List (Kind × String) → Except String SelState
  | [] => Except.ok s
  | (k, v) :: rest =>
    match append s k v with
    | Except.ok s' => runChain s' rest
    | Except.error m => Except.error m

/-- The `stringify` output of a chain started on the fresh builder, or the first
raised message. -/
def runShow (ops : List (Kind × String)) : Except String String :=
  (runChain emptySel ops).map stringify

/-- The spec-side plain concatenation of the chain's final fragments. -/
def runSpecConcat (ops : List (Kind × String)) : Except String String :=
  (runChain emptySel ops).map specConcat

/-- A heap of selector objects; a reference is an index into the heap. Used to
reason about aliasing: which object a given append call touches. -/
abbrev Heap := List SelState

/-- One append call at the level of object references. A call on a receiver with
non-empty `stringify` output mutates the receiver's slot in place (also when the
order check then raises); a call on a receiver with empty output builds a new
object and, when it succeeds, returns its fresh reference (the object built on a
failing call is dropped, never reachable again). -/
def applyAppendHeap (h : Heap) (r : Nat) (k : Kind) (v : String) :
    Heap × Except String Nat :=
  match h[r]? with
  | none => (h, Except.error "invalid reference")
  | some s =>
    if dupGuard s k then (h, Except.error occurExeption)
    else if stringify s ≠ "" then
      match processElement s k v with
      | (s', none) => (h.set r s', Except.ok r)
      | (s', some m) => (h.set r s', Except.error m)
    else
      match processElement emptySel k v with
      | (s', none) => (h ++ [s'], Except.ok h.length)
      | (_, some m) => (h, Except.error m)

/-- The node built by `combine`: it stores `combineStr`, the string computed at
call time, and its `stringify` returns that stored string. -/
structure CombineObj where
  combineStr : String
deriving DecidableEq, Repr

/-- Source `combine`: the template literal evaluated at call time from the two
operands' `stringify` outputs and the combinator token. -/
def combine (s1str : String) (combinator : String) (s2str : String) : CombineObj :=
  { combineStr := s1str ++ " " ++ combinator ++ " " ++ s2str }

/-- The `stringify` of a combine node: return the stored string. -/
def CombineObj.stringify (o : CombineObj) : String := o.combineStr

/-- The `combine` operation at the level of object references: it reads the two operands'
states and writes nothing, so it returns the heap as received. -/
def combineHeap (h : Heap) (r1 : Nat) (combinator : String) (r2 : Nat) :
    Heap × Option CombineObj :=
  match h[r1]?, h[r2]? with
  | some s1, some s2 => (h, some (combine (stringify s1) combinator (stringify s2)))
  | _, _ => (h, none)

/-- A kind list is non-decreasing in canonical rank (call order respects
`Type ≤ Id ≤ Class ≤ Attribute ≤ PseudoClass ≤ PseudoElement`). -/
def ranksNonDecreasing : List Kind → Bool
  | [] => true
  | [_] => true
  | a :: b :: t => decide (rank a ≤ rank b) && ranksNonDecreasing (b :: t)

/-- Invariant tying a selector state to the list `done` of kinds appended so far
on the chain: `partsOrder` only holds appended kinds, it is strictly increasing
in rank, and a singular kind with a non-empty fragment was appended. -/
structure Inv (s : SelState) (done : List Kind) : Prop where
  po_sub : ∀ k ∈ s.partsOrder, k ∈ done
  po_sorted : s.partsOrder.Pairwise (fun a b => rank a < rank b)
  sing_frag : ∀ k, singular k = true → fragmentOf s k ≠ "" → k ∈ done

theorem strDataAppend (a b : String) : (a ++ b).data = a.data ++ b.data :=
  String.data_append a b

theorem strEqOfData {a b : String} (h : a.data = b.data) : a = b := by
  cases a
  cases b
  simp only at h
  rw [h]

theorem getLastDecomp {α : Type} : ∀ (l : List α) (a : α),
    l.getLast? = some a → l = l.dropLast ++ [a] := by
  intro l
  induction l with
  | nil => intro a h; simp at h
  | cons x xs ih =>
    intro a h
    cases xs with
    | nil =>
      simp [List.getLast?] at h
      simp [h]
    | cons y ys =>
      have h' : (y :: ys).getLast? = some a := by
        simpa [List.getLast?_cons_cons] using h
      have hx := ih a h'
      calc x :: y :: ys = x :: ((y :: ys).dropLast ++ [a]) := by rw [← hx]
        _ = (x :: y :: ys).dropLast ++ [a] := by simp

theorem memOfGetLast {α : Type} {l : List α} {a : α} (h : l.getLast? = some a) : a ∈ l := by
  rw [getLastDecomp l a h]
  simp

theorem pairwiseDropLastLt : ∀ (po : List Kind) (a : Kind),
    po.Pairwise (fun x y => rank x < rank y) → po.getLast? = some a →
    ∀ x ∈ po.dropLast, rank x < rank a := by
  intro po
  induction po with
  | nil => intro a _ h; simp at h
  | cons b t ih =>
    intro a hp hl x hx
    cases t with
    | nil => simp at hx
    | cons c u =>
      have hl' : (c :: u).getLast? = some a := by
        simpa [List.getLast?_cons_cons] using hl
      have hp' := (List.pairwise_cons.mp hp).2
      have hb := (List.pairwise_cons.mp hp).1
      have hx' : x = b ∨ x ∈ (c :: u).dropLast := by simpa using hx
      rcases hx' with rfl | hx'
      · exact hb a (memOfGetLast hl')
      · exact ih a hp' hl' x hx'

theorem getLastAddPartToOrder (po : List Kind) (k : Kind) :
    (addPartToOrder po k).getLast? = some k := by
  unfold addPartToOrder
  split
  · assumption
  · exact List.getLast?_concat po

theorem memOfMemDropLastAddPart {po : List Kind} {k x : Kind}
    (hx : x ∈ (addPartToOrder po k).dropLast) : x ∈ po := by
  unfold addPartToOrder at hx
  split at hx
  · exact List.dropLast_subset po hx
  · rw [List.dropLast_concat] at hx
    exact hx

theorem memAddPartToOrder {po : List Kind} {k x : Kind}
    (hx : x ∈ addPartToOrder po k) : x ∈ po ∨ x = k := by
  unfold addPartToOrder at hx
  split at hx
  · exact Or.inl hx
  · rcases List.mem_append.mp hx with h | h
    · exact Or.inl h
    · exact Or.inr (by simpa using h)

theorem memTakeIff : ∀ x k : Kind,
    (correctOrder.take (correctOrder.indexOf k)).contains x = true ↔ rank x < rank k := by
  decide

theorem rankInj : ∀ a b : Kind, rank a = rank b → a = b := by decide

theorem dupGuardEq (s : SelState) (k : Kind) :
    dupGuard s k = (singular k && (fragmentOf s k != "")) := by
  cases k <;> rfl

theorem fragmentOfSetFieldSelf (s : SelState) (k : Kind) (t : String) :
    fragmentOf (setField s k t) k = t := by
  cases k <;> rfl

theorem fragmentOfSetFieldNe (s : SelState) (k j : Kind) (t : String) (hne : j ≠ k) :
    fragmentOf (setField s k t) j = fragmentOf s j := by
  cases k <;> cases j <;> first | rfl | exact absurd rfl hne

theorem partsOrderSetField (s : SelState) (k : Kind) (t : String) :
    (setField s k t).partsOrder = s.partsOrder := by
  cases k <;> rfl

theorem fragmentOfWithPartsOrder (s : SelState) (po : List Kind) (j : Kind) :
    fragmentOf { s with partsOrder := po } j = fragmentOf s j := by
  cases j <;> rfl

theorem processElementFst (s : SelState) (k : Kind) (v : String) :
    (processElement s k v).1
      = { setField s k (renderValue s k v) with partsOrder := addPartToOrder s.partsOrder k } := by
  simp only [processElement, partsOrderSetField]

theorem processElementSnd (s : SelState) (k : Kind) (v : String) :
    (processElement s k v).2
      = if checkElemOrder (addPartToOrder s.partsOrder k) then none else some rangeExeption := by
  simp only [processElement, partsOrderSetField]

theorem checkSingle : ∀ k : Kind, checkElemOrder (addPartToOrder ([] : List Kind) k) = true := by
  decide

theorem rankLtOfMemOfNotLast {po : List Kind} {k : Kind}
    (hp : po.Pairwise (fun a b => rank a < rank b))
    (hle : ∀ x ∈ po, rank x ≤ rank k)
    (hlast : po.getLast? ≠ some k) :
    ∀ x ∈ po, rank x < rank k := by
  intro x hx
  by_cases hxk : x = k
  · subst hxk
    exfalso
    have hne : po ≠ [] := List.ne_nil_of_mem hx
    have hga : po.getLast? = some (po.getLast hne) := List.getLast?_eq_getLast po hne
    have hak : po.getLast hne ≠ x := fun he => hlast (he ▸ hga)
    have hd := getLastDecomp po (po.getLast hne) hga
    have hxdrop : x ∈ po.dropLast := by
      rw [hd] at hx
      rcases List.mem_append.mp hx with h | h
      · exact h
      · have hxa : x = po.getLast hne := by simpa using h
        exact absurd hxa.symm hak
    have h1 := pairwiseDropLastLt po (po.getLast hne) hp hga x hxdrop
    have h2 := hle (po.getLast hne) (memOfGetLast hga)
    omega
  · have h1 := hle x hx
    have h2 : rank x ≠ rank k := fun he => hxk (rankInj x k he)
    omega

theorem checkElemOrderTrueOf {po : List Kind} {k : Kind}
    (hp : po.Pairwise (fun a b => rank a < rank b))
    (hle : ∀ x ∈ po, rank x ≤ rank k) :
    checkElemOrder (addPartToOrder po k) = true := by
  simp only [checkElemOrder, getLastAddPartToOrder]
  rw [List.all_eq_true]
  intro x hx
  have hxpo : x ∈ po := memOfMemDropLastAddPart hx
  have hlt : rank x < rank k := by
    by_cases hl : po.getLast? = some k
    · have heq : addPartToOrder po k = po := by simp [addPartToOrder, hl]
      rw [heq] at hx
      exact pairwiseDropLastLt po k hp hl x hx
    · exact rankLtOfMemOfNotLast hp hle hl x hxpo
  exact (memTakeIff x k).mpr hlt

theorem fragmentOfEmpty : ∀ j : Kind, fragmentOf emptySel j = "" := by
  intro j
  cases j <;> rfl

theorem appendOkOfInv (s : SelState) (done : List Kind) (k : Kind) (v : String)
    (hInv : Inv s done) (hge : ∀ j ∈ done, rank j ≤ rank k)
    (hnew : singular k = true → k ∉ done) :
    ∃ s', append s k v = Except.ok s' ∧ Inv s' (done ++ [k]) := by
  have hguard : dupGuard s k = false := by
    rw [dupGuardEq]
    cases hsk : singular k with
    | false => simp
    | true =>
      have hfrag : fragmentOf s k = "" := by
        by_contra hne
        exact (hnew hsk) (hInv.sing_frag k hsk hne)
      simp [hfrag]
  have hporank : ∀ x ∈ s.partsOrder, rank x ≤ rank k := fun x hx => hge x (hInv.po_sub x hx)
  by_cases hstr : stringify s = ""
  · have hsnd : (processElement emptySel k v).2 = none := by
      rw [processElementSnd]
      have hpe0 : emptySel.partsOrder = ([] : List Kind) := rfl
      rw [hpe0, checkSingle k]
      rfl
    rcases hpe : processElement emptySel k v with ⟨s1, e⟩
    rw [hpe] at hsnd
    simp only at hsnd
    subst hsnd
    have hs1 : s1 = { setField emptySel k (renderValue emptySel k v) with
        partsOrder := addPartToOrder emptySel.partsOrder k } := by
      have h0 := processElementFst emptySel k v
      rw [hpe] at h0
      simpa using h0
    have hpo : s1.partsOrder = [k] := by
      rw [hs1]
      have h00 : emptySel.partsOrder = ([] : List Kind) := rfl
      simp [addPartToOrder, h00]
    refine ⟨s1, ?_, ?_, ?_, ?_⟩
    · unfold append applyPart
      simp [hguard, hstr, hpe]
    · intro x hx
      rw [hpo] at hx
      have hxk : x = k := by simpa using hx
      subst hxk
      simp
    · rw [hpo]
      simp
    · intro j hj hne
      by_cases hjk : j = k
      · subst hjk
        simp
      · exfalso
        rw [hs1, fragmentOfWithPartsOrder, fragmentOfSetFieldNe _ _ _ _ hjk] at hne
        exact hne (fragmentOfEmpty j)
  · have hchk : checkElemOrder (addPartToOrder s.partsOrder k) = true :=
      checkElemOrderTrueOf hInv.po_sorted hporank
    have hsnd : (processElement s k v).2 = none := by
      rw [processElementSnd, hchk]
      rfl
    rcases hpe : processElement s k v with ⟨s1, e⟩
    rw [hpe] at hsnd
    simp only at hsnd
    subst hsnd
    have hs1 : s1 = { setField s k (renderValue s k v) with
        partsOrder := addPartToOrder s.partsOrder k } := by
      have h0 := processElementFst s k v
      rw [hpe] at h0
      simpa using h0
    have hpo : s1.partsOrder = addPartToOrder s.partsOrder k := by
      rw [hs1]
    refine ⟨s1, ?_, ?_, ?_, ?_⟩
    · unfold append applyPart
      simp [hguard, hstr, hpe]
    · intro x hx
      rw [hpo] at hx
      rcases memAddPartToOrder hx with h | h
      · exact List.mem_append.mpr (Or.inl (hInv.po_sub x h))
      · subst h
        simp
    · rw [hpo]
      unfold addPartToOrder
      split
      · exact hInv.po_sorted
      next hl =>
        refine List.pairwise_append.mpr ⟨hInv.po_sorted, by simp, ?_⟩
        intro x hx b hb
        have hbk : b = k := by simpa using hb
        subst hbk
        exact rankLtOfMemOfNotLast hInv.po_sorted hporank hl x hx
    · intro j hj hne
      by_cases hjk : j = k
      · subst hjk
        simp
      · rw [hs1, fragmentOfWithPartsOrder, fragmentOfSetFieldNe _ _ _ _ hjk] at hne
        exact List.mem_append.mpr (Or.inl (hInv.sing_frag j hj hne))

theorem runChainOkAux : ∀ (ops : List (Kind × String)) (s : SelState) (done : List Kind),
    Inv s done →
    (∀ j ∈ done, ∀ p ∈ ops, rank j ≤ rank p.1) →
    (ops.map Prod.fst).Pairwise (fun a b => rank a ≤ rank b) →
    (∀ j, singular j = true → j ∈ done → j ∉ ops.map Prod.fst) →
    (∀ j, singular j = true → (ops.map Prod.fst).count j ≤ 1) →
    ∃ s', runChain s ops = Except.ok s' := by
  intro ops
  induction ops with
  | nil =>
    intro s done _ _ _ _ _
    exact ⟨s, rfl⟩
  | cons p rest ih =>
    rcases p with ⟨k, v⟩
    intro s done hInv hcross hsorted hsing hcount
    have hge : ∀ j ∈ done, rank j ≤ rank k := fun j hj => hcross j hj (k, v) (by simp)
    have hnew : singular k = true → k ∉ done := by
      intro hk hkdone
      exact (hsing k hk hkdone) (by simp)
    obtain ⟨s1, hok, hInv1⟩ := appendOkOfInv s done k v hInv hge hnew
    have hs2 : (k :: rest.map Prod.fst).Pairwise (fun a b => rank a ≤ rank b) := hsorted
    have hheadle : ∀ b ∈ rest.map Prod.fst, rank k ≤ rank b := (List.pairwise_cons.mp hs2).1
    obtain ⟨s', hs'⟩ := ih s1 (done ++ [k]) hInv1
      (by
        intro j hj p hp
        rcases List.mem_append.mp hj with h | h
        · exact hcross j h p (List.mem_cons_of_mem _ hp)
        · have hjk : j = k := by simpa using h
          rw [hjk]
          exact hheadle p.1 (List.mem_map_of_mem Prod.fst hp))
      (by
        exact (List.pairwise_cons.mp hs2).2)
      (by
        intro j hj hjdone
        rcases List.mem_append.mp hjdone with h | h
        · intro hmem
          exact (hsing j hj h) (List.mem_cons_of_mem _ hmem)
        · have hjk : j = k := by simpa using h
          rw [hjk]
          have hc : (k :: rest.map Prod.fst).count k ≤ 1 := hcount k (hjk ▸ hj)
          rw [List.count_cons_self] at hc
          have hz : (rest.map Prod.fst).count k = 0 := by omega
          exact List.count_eq_zero.mp hz)
      (by
        intro j hj
        have hc : (k :: rest.map Prod.fst).count j ≤ 1 := hcount j hj
        rw [List.count_cons] at hc
        omega)
    refine ⟨s', ?_⟩
    simp [runChain, hok, hs']

theorem rndTail {a : Kind} {t : List Kind}
    (h : ranksNonDecreasing (a :: t) = true) : ranksNonDecreasing t = true := by
  cases t with
  | nil => rfl
  | cons b t' =>
    have := (Bool.and_eq_true _ _).mp h
    exact this.2

theorem rndHeadLe {a b : Kind} {t : List Kind}
    (h : ranksNonDecreasing (a :: b :: t) = true) : rank a ≤ rank b := by
  have := (Bool.and_eq_true _ _).mp h
  exact of_decide_eq_true this.1

theorem pairwiseOfRnd : ∀ l : List Kind, ranksNonDecreasing l = true →
    l.Pairwise (fun a b => rank a ≤ rank b) := by
  intro l
  induction l with
  | nil => intro _; simp
  | cons a t ih =>
    intro h
    have ht := ih (rndTail h)
    refine List.pairwise_cons.mpr ⟨?_, ht⟩
    intro y hy
    cases t with
    | nil => simp at hy
    | cons b t' =>
      have hab := rndHeadLe h
      have hy' : y = b ∨ y ∈ t' := by simpa using hy
      rcases hy' with rfl | hy'
      · exact hab
      · have hby := (List.pairwise_cons.mp ht).1 y hy'
        omega

theorem strMkData (v : String) : String.mk v.data = v := by
  cases v
  rfl

theorem strNeEmptyOfData {s : String} (h : s.data ≠ []) : s ≠ "" := by
  intro hs
  rw [hs] at h
  exact h rfl

theorem stringifyData (s : SelState) : (stringify s).data
    = (s.elementStr.data ++ s.idStr.data ++ s.classesStr.data ++ s.attrStr.data
       ++ s.pseudoClassesStr.data ++ s.pseudoElementStr.data).filter (fun c => c != '\n') := by
  have hfil : List.filter (fun c => c != '\n') ['\n'] = [] := by decide
  simp [stringify, removeNewlines, strDataAppend, List.filter_append, hfil]

theorem specConcatData (s : SelState) : (specConcat s).data
    = s.elementStr.data ++ s.idStr.data ++ s.classesStr.data ++ s.attrStr.data
      ++ s.pseudoClassesStr.data ++ s.pseudoElementStr.data := by
  simp [specConcat, strDataAppend]

theorem stringifyEqRemoveNewlines (s : SelState) :
    stringify s = removeNewlines (specConcat s) := by
  apply strEqOfData
  rw [stringifyData]
  simp [removeNewlines, specConcatData]

theorem stringifyOfNoNewline (s : SelState)
    (h : ∀ c ∈ (specConcat s).data, c ≠ '\n') : stringify s = specConcat s := by
  apply strEqOfData
  rw [stringifyData, ← specConcatData]
  refine List.filter_eq_self.mpr ?_
  intro c hc
  have hcne := h c hc
  simp [hcne]

theorem splitOnCharNeNil (c : Char) : ∀ l : List Char, splitOnChar c l ≠ [] := by
  intro l
  induction l with
  | nil => simp [splitOnChar]
  | cons x xs ih =>
    rcases hs : splitOnChar c xs with _ | ⟨y, ys⟩
    · exact absurd hs ih
    · simp only [splitOnChar, hs]
      split <;> simp

theorem splitOnCharNoSep (c : Char) : ∀ l : List Char,
    (∀ x ∈ l, x ≠ c) → splitOnChar c l = [l] := by
  intro l
  induction l with
  | nil => intro _; rfl
  | cons x xs ih =>
    intro h
    have hxs := ih (fun y hy => h y (List.mem_cons_of_mem _ hy))
    have hx : x ≠ c := h x (by simp)
    simp only [splitOnChar, hxs]
    simp [hx]

theorem renderAttrPieceNe (v : String) : renderAttrPiece v ≠ "" := by
  apply strNeEmptyOfData
  unfold renderAttrPiece
  rcases hs : splitOnChar '=' v.data with _ | ⟨key, rest⟩
  · exact absurd hs (splitOnCharNeNil '=' v.data)
  · cases rest with
    | nil =>
      simp [strDataAppend]
    | cons val more =>
      simp [strDataAppend]

theorem stringifyEmpty : stringify emptySel = "" := by decide

theorem applyPartDup (s : SelState) (k : Kind) (v : String)
    (hdg : dupGuard s k = true) :
    applyPart s k v = (Except.error occurExeption, s) := by
  unfold applyPart
  simp [hdg]

theorem applyPartCopy (s : SelState) (k : Kind) (v : String)
    (hdg : dupGuard s k = false) (hstr : stringify s = "")
    (hsnd : (processElement emptySel k v).2 = none) :
    applyPart s k v = (Except.ok (processElement emptySel k v).1, s) := by
  unfold applyPart
  rcases hpe : processElement emptySel k v with ⟨s1, e⟩
  rw [hpe] at hsnd
  simp only at hsnd
  subst hsnd
  simp [hdg, hstr, hpe]

theorem applyPartMutOk (s : SelState) (k : Kind) (v : String)
    (hdg : dupGuard s k = false) (hstr : stringify s ≠ "")
    (hsnd : (processElement s k v).2 = none) :
    applyPart s k v = (Except.ok (processElement s k v).1, (processElement s k v).1) := by
  unfold applyPart
  rcases hpe : processElement s k v with ⟨s1, e⟩
  rw [hpe] at hsnd
  simp only at hsnd
  subst hsnd
  simp [hdg, hstr, hpe]

theorem applyPartMutErr (s : SelState) (k : Kind) (v : String) (m : String)
    (hdg : dupGuard s k = false) (hstr : stringify s ≠ "")
    (hsnd : (processElement s k v).2 = some m) :
    applyPart s k v = (Except.error m, (processElement s k v).1) := by
  unfold applyPart
  rcases hpe : processElement s k v with ⟨s1, e⟩
  rw [hpe] at hsnd
  simp only at hsnd
  subst hsnd
  simp [hdg, hstr, hpe]

theorem applyPartMutReceiver (s : SelState) (k : Kind) (v : String)
    (hdg : dupGuard s k = false) (hstr : stringify s ≠ "") :
    (applyPart s k v).2 = (processElement s k v).1 := by
  rcases he : (processElement s k v).2 with _ | m
  · rw [applyPartMutOk s k v hdg hstr he]
  · rw [applyPartMutErr s k v m hdg hstr he]

theorem applyPartReceiverEmpty (s : SelState) (k : Kind) (v : String)
    (hstr : stringify s = "") :
    (applyPart s k v).2 = s := by
  unfold applyPart
  rcases hdg : dupGuard s k with _ | _
  · rcases hpe : processElement emptySel k v with ⟨s1, e⟩
    cases e <;> simp [hdg, hstr, hpe]
  · simp [hdg]

theorem jsSliceInnerBracket (t : String) : jsSliceInner ("[" ++ t ++ "]") = t := by
  apply strEqOfData
  have hb1 : ("[" : String).data = ['['] := rfl
  have hb2 : ("]" : String).data = [']'] := rfl
  simp [jsSliceInner, strDataAppend, hb1, hb2]

theorem renderValueAttrEmpty (v : String) :
    renderValue emptySel Kind.attr v = "[" ++ renderAttrPiece v ++ "]" := by
  unfold renderValue
  have h0 : jsSliceInner emptySel.attrStr = "" := rfl
  simp [h0]

theorem processElementAttrEmpty (v : String) :
    processElement emptySel Kind.attr v
      = ({ elementStr := "", idStr := "", classesStr := "",
           attrStr := "[" ++ renderAttrPiece v ++ "]",
           pseudoClassesStr := "", pseudoElementStr := "", partsOrder := [Kind.attr] }, none) := by
  have h1 : (processElement emptySel Kind.attr v).1
      = { elementStr := "", idStr := "", classesStr := "",
          attrStr := "[" ++ renderAttrPiece v ++ "]",
          pseudoClassesStr := "", pseudoElementStr := "", partsOrder := [Kind.attr] } := by
    rw [processElementFst, renderValueAttrEmpty]
    have h00 : emptySel.partsOrder = ([] : List Kind) := rfl
    simp [setField, emptySel, addPartToOrder, h00]
  have h2 : (processElement emptySel Kind.attr v).2 = none := by
    rw [processElementSnd]
    have h00 : emptySel.partsOrder = ([] : List Kind) := rfl
    rw [h00, checkSingle Kind.attr]
    rfl
  calc processElement emptySel Kind.attr v
      = ((processElement emptySel Kind.attr v).1, (processElement emptySel Kind.attr v).2) := rfl
    _ = _ := by rw [h1, h2]

theorem appendAttrFirst (v : String) :
    applyPart emptySel Kind.attr v
      = (Except.ok { elementStr := "", idStr := "", classesStr := "",
                     attrStr := "[" ++ renderAttrPiece v ++ "]",
                     pseudoClassesStr := "", pseudoElementStr := "",
                     partsOrder := [Kind.attr] }, emptySel) := by
  have hdg : dupGuard emptySel Kind.attr = false := rfl
  have hpe := processElementAttrEmpty v
  have hsnd : (processElement emptySel Kind.attr v).2 = none := by rw [hpe]
  rw [applyPartCopy emptySel Kind.attr v hdg stringifyEmpty hsnd, hpe]

theorem stringifyAttrOnlyNe (t : String) (po : List Kind) :
    stringify { elementStr := "", idStr := "", classesStr := "", attrStr := "[" ++ t ++ "]",
                pseudoClassesStr := "", pseudoElementStr := "", partsOrder := po } ≠ "" := by
  apply strNeEmptyOfData
  rw [stringifyData]
  have hb1 : ("[" : String).data = ['['] := rfl
  have hf : List.filter (fun c => c != '\n') ['['] = ['['] := by decide
  simp [strDataAppend, hb1, List.filter_append, hf]

theorem appendAttrSecond (t v : String) (ht : t ≠ "") :
    applyPart { elementStr := "", idStr := "", classesStr := "", attrStr := "[" ++ t ++ "]",
                pseudoClassesStr := "", pseudoElementStr := "", partsOrder := [Kind.attr] }
        Kind.attr v
      = (Except.ok { elementStr := "", idStr := "", classesStr := "",
                     attrStr := "[" ++ t ++ " " ++ renderAttrPiece v ++ "]",
                     pseudoClassesStr := "", pseudoElementStr := "",
                     partsOrder := [Kind.attr] },
         { elementStr := "", idStr := "", classesStr := "",
           attrStr := "[" ++ t ++ " " ++ renderAttrPiece v ++ "]",
           pseudoClassesStr := "", pseudoElementStr := "",
           partsOrder := [Kind.attr] }) := by
  have hdg : dupGuard
      { elementStr := "", idStr := "", classesStr := "",
        attrStr := "[" ++ t ++ "]", pseudoClassesStr := "", pseudoElementStr := "",
        partsOrder := [Kind.attr] } Kind.attr = false := rfl
  have hstr := stringifyAttrOnlyNe t [Kind.attr]
  have hrv : renderValue
      { elementStr := "", idStr := "", classesStr := "",
        attrStr := "[" ++ t ++ "]", pseudoClassesStr := "", pseudoElementStr := "",
        partsOrder := [Kind.attr] } Kind.attr v
      = "[" ++ t ++ " " ++ renderAttrPiece v ++ "]" := by
    unfold renderValue
    simp [jsSliceInnerBracket, ht]
  have h1 : (processElement
      { elementStr := "", idStr := "", classesStr := "",
        attrStr := "[" ++ t ++ "]", pseudoClassesStr := "", pseudoElementStr := "",
        partsOrder := [Kind.attr] } Kind.attr v).1
      = { elementStr := "", idStr := "", classesStr := "",
          attrStr := "[" ++ t ++ " " ++ renderAttrPiece v ++ "]",
          pseudoClassesStr := "", pseudoElementStr := "", partsOrder := [Kind.attr] } := by
    rw [processElementFst, hrv]
    simp [setField, addPartToOrder]
  have h2 : (processElement
      { elementStr := "", idStr := "", classesStr := "",
        attrStr := "[" ++ t ++ "]", pseudoClassesStr := "", pseudoElementStr := "",
        partsOrder := [Kind.attr] } Kind.attr v).2 = none := by
    rw [processElementSnd]
    have hpo : addPartToOrder [Kind.attr] Kind.attr = [Kind.attr] := by decide
    rw [hpo]
    rfl
  rw [applyPartMutOk _ _ _ hdg hstr h2, h1]

theorem memDropLastAddPart {po : List Kind} {k j : Kind}
    (hj : j ∈ po) (hne : j ≠ k) : j ∈ (addPartToOrder po k).dropLast := by
  unfold addPartToOrder
  split
  next hl =>
    have hd := getLastDecomp po k hl
    rw [hd] at hj
    rcases List.mem_append.mp hj with hcase | hcase
    · exact hcase
    · have hjk : j = k := by simpa using hcase
      exact absurd hjk hne
  next =>
    rw [List.dropLast_concat]
    exact hj

/-- Claim C1, counterexample: `stringify` is not the plain concatenation of the
rendered fragments. The id payload `a\nb` is stored as the rendered fragment
`#a\nb`, but `stringify` removes every newline, returning `#ab` while the plain
concatenation of the rendered fragments is `#a\nb`. -/
theorem claim1_counterexample :
    runChain emptySel [(Kind.id, "a\nb")]
      = Except.ok { elementStr := "", idStr := "#a\nb", classesStr := "", attrStr := "",
                    pseudoClassesStr := "", pseudoElementStr := "", partsOrder := [Kind.id] }
    ∧ stringify { elementStr := "", idStr := "#a\nb", classesStr := "", attrStr := "",
                  pseudoClassesStr := "", pseudoElementStr := "", partsOrder := [Kind.id] }
      = "#ab"
    ∧ specConcat { elementStr := "", idStr := "#a\nb", classesStr := "", attrStr := "",
                   pseudoClassesStr := "", pseudoElementStr := "", partsOrder := [Kind.id] }
      = "#a\nb"
    ∧ ("#ab" : String) ≠ "#a\nb" := by
  decide

/-- Claim C1 (amended): for every Selector, `stringify` returns the concatenation,
in canonical kind order (type, id, classes, attribute-bracket, pseudo-classes,
pseudo-element, empty string for a kind never appended, no separators), with
every newline character removed; whenever no rendered fragment contains a
newline this is the plain concatenation. `stringify` on a Selector with no
appended fragments returns `""` and never throws (it is a total function), and
`newBuilder().addId('main').addClass('container').addClass('editable').serialize()`
equals `#main.container.editable`. -/
theorem claim1_serialize (s : SelState) :
    stringify s = removeNewlines (specConcat s)
    ∧ ((∀ c ∈ (specConcat s).data, c ≠ '\n') → stringify s = specConcat s)
    ∧ stringify emptySel = ""
    ∧ runShow [(Kind.id, "main"), (Kind.cls, "container"), (Kind.cls, "editable")]
        = Except.ok "#main.container.editable" :=
  ⟨stringifyEqRemoveNewlines s, stringifyOfNoNewline s, stringifyEmpty, by decide⟩

/-- Witness for claim C1's theorem at a concrete newline-free selector. -/
theorem claim1_serialize_witness :
    stringify { elementStr := "div", idStr := "#main", classesStr := ".c", attrStr := "",
                pseudoClassesStr := "", pseudoElementStr := "", partsOrder := [] }
      = specConcat { elementStr := "div", idStr := "#main", classesStr := ".c", attrStr := "",
                     pseudoClassesStr := "", pseudoElementStr := "", partsOrder := [] } :=
  (claim1_serialize _).2.1 (by decide)

/-- Claim C2: for all serializable operands (identified with their `stringify`
outputs) and a combinator token among the four allowed ones, `combine` yields a
node whose `stringify` is `left + ' ' + token + ' ' + right`; nested joins
serialize left-to-right exactly as constructed, and the space token yields three
consecutive spaces. -/
theorem claim2_combine (a b c tok : String)
    (_htok : tok ∈ ([" ", "+", "~", ">"] : List String)) :
    (combine a tok b).stringify = a ++ " " ++ tok ++ " " ++ b
    ∧ (combine ((combine a "~" b).stringify) "+" c).stringify
        = a ++ " ~ " ++ b ++ " + " ++ c
    ∧ (combine a " " b).stringify = a ++ "   " ++ b := by
  refine ⟨rfl, ?_, ?_⟩
  · apply strEqOfData
    simp [combine, CombineObj.stringify, strDataAppend]
  · apply strEqOfData
    simp [combine, CombineObj.stringify, strDataAppend]

/-- Witness for claim C2's theorem with the `+` combinator. -/
theorem claim2_combine_witness :
    (combine "x" "+" "y").stringify = "x" ++ " " ++ "+" ++ " " ++ "y" :=
  (claim2_combine "x" "y" "z" "+" (by decide)).1

/-- Claim C3, counterexample: the raised message spells "more then one time"
(source spelling), not "more than one time" as the claim states; moreover a
second `element` call raises nothing when the first call stored the empty
fragment (`element('')`), so the duplicate error is keyed on the stored
fragment being non-empty, not on the call count. -/
theorem claim3_counterexample :
    runShow [(Kind.element, "div"), (Kind.element, "span")] = Except.error occurExeption
    ∧ occurExeption
        ≠ "Element, id and pseudo-element should not occur more than one time inside the selector"
    ∧ (runShow [(Kind.element, ""), (Kind.element, "div")]).isOk = true := by
  decide

/-- Claim C3 (amended): a singular-kind append (`element`, `id`, `pseudoElement`)
on an instance whose fragment of that kind is already non-empty — as a second
call with a non-empty payload always leaves it — raises the duplicate error,
whose message is exactly "Element, id and pseudo-element should not occur more
then one time inside the selector". -/
theorem claim3_duplicate_guard (s : SelState) (k : Kind) (v : String)
    (hk : singular k = true) (hfrag : fragmentOf s k ≠ "") :
    append s k v
      = Except.error
          "Element, id and pseudo-element should not occur more then one time inside the selector" := by
  have hdg : dupGuard s k = true := by
    rw [dupGuardEq, hk]
    simp [hfrag]
  unfold append
  rw [applyPartDup s k v hdg]
  rfl

/-- Witness for claim C3's theorem: a second `addType` on a chain that stored
`div` raises the duplicate error. -/
theorem claim3_duplicate_guard_witness :
    append { elementStr := "div", idStr := "", classesStr := "", attrStr := "",
             pseudoClassesStr := "", pseudoElementStr := "", partsOrder := [Kind.element] }
        Kind.element "span"
      = Except.error
          "Element, id and pseudo-element should not occur more then one time inside the selector" :=
  claim3_duplicate_guard _ Kind.element "span" (by decide) (by decide)

/-- Claim C4, counterexample: appending a kind of lower rank than a previously
appended kind does not always raise the out-of-order error — on
`element('a').class('x').element('div')` the singular duplicate guard fires
first and the duplicate message is raised instead of the order message. -/
theorem claim4_counterexample :
    runShow [(Kind.element, "a"), (Kind.cls, "x"), (Kind.element, "div")]
      = Except.error occurExeption
    ∧ occurExeption ≠ rangeExeption := by
  decide

/-- Claim C4 (amended): on an instance with accumulated output, appending a kind
whose canonical rank is lower than the rank of a kind already recorded in
`partsOrder` raises, synchronously inside that append call, the error with
message "Selector parts should be arranged in the following order: element, id,
class, attribute, pseudo-class, pseudo-element" — unless the appended kind is a
singular kind whose fragment is already non-empty, in which case the duplicate
guard fires first and the duplicate error is raised instead. -/
theorem claim4_out_of_order (s : SelState) (k j : Kind) (v : String)
    (hj : j ∈ s.partsOrder) (hrank : rank k < rank j)
    (hdg : dupGuard s k = false) (hstr : stringify s ≠ "") :
    append s k v = Except.error rangeExeption := by
  have hne : j ≠ k := by
    intro he
    rw [he] at hrank
    omega
  have hjd : j ∈ (addPartToOrder s.partsOrder k).dropLast := memDropLastAddPart hj hne
  have hcontains : (correctOrder.take (correctOrder.indexOf k)).contains j = false := by
    cases hb : (correctOrder.take (correctOrder.indexOf k)).contains j with
    | false => rfl
    | true =>
      exfalso
      have hlt := (memTakeIff j k).mp hb
      omega
  have hchk : checkElemOrder (addPartToOrder s.partsOrder k) = false := by
    simp only [checkElemOrder, getLastAddPartToOrder]
    rw [Bool.eq_false_iff]
    intro hall
    rw [List.all_eq_true] at hall
    have hx := hall j hjd
    rw [hcontains] at hx
    simp at hx
  have hsnd : (processElement s k v).2 = some rangeExeption := by
    rw [processElementSnd, hchk]
    rfl
  unfold append
  rw [applyPartMutErr s k v rangeExeption hdg hstr hsnd]

/-- Witness for claim C4's theorem: `addClass('x')` then `addType('div')` raises
the out-of-order error. -/
theorem claim4_out_of_order_witness :
    append { elementStr := "", idStr := "", classesStr := ".x", attrStr := "",
             pseudoClassesStr := "", pseudoElementStr := "", partsOrder := [Kind.cls] }
        Kind.element "div"
      = Except.error rangeExeption :=
  claim4_out_of_order _ Kind.element Kind.cls "div" (by decide) (by decide) (by decide)
    (by decide)

/-- Claim C5: a chain of append calls whose kinds are non-decreasing in the
canonical order and in which no singular kind occurs twice raises no error; the
final `stringify` is a total function, so serializing the result cannot raise
either. -/
theorem claim5_valid_chain (ops : List (Kind × String))
    (hsort : ranksNonDecreasing (ops.map Prod.fst) = true)
    (hcount : ∀ j, singular j = true → (ops.map Prod.fst).count j ≤ 1) :
    ∃ s', runChain emptySel ops = Except.ok s' := by
  have hInv0 : Inv emptySel [] := by
    refine ⟨?_, ?_, ?_⟩
    · intro x hx
      exact absurd hx (List.not_mem_nil x)
    · exact List.Pairwise.nil
    · intro j _ hne
      exact absurd (fragmentOfEmpty j) hne
  exact runChainOkAux ops emptySel [] hInv0
    (fun j hj => absurd hj (List.not_mem_nil j))
    (pairwiseOfRnd _ hsort)
    (fun j _ hj => absurd hj (List.not_mem_nil j))
    hcount

/-- Witness for claim C5's theorem on a full valid chain using every kind. -/
theorem claim5_valid_chain_witness :
    ∃ s', runChain emptySel
      [(Kind.element, "div"), (Kind.id, "main"), (Kind.cls, "container"),
       (Kind.cls, "draggable"), (Kind.attr, "data-x=1"), (Kind.pseudoClass, "hover"),
       (Kind.pseudoElement, "after")]
      = Except.ok s' :=
  claim5_valid_chain _ (by decide) (by decide)

/-- Claim C6: an append call touches at most its receiver's heap slot — every
other existing object (other chains' objects, the shared template) keeps its
state; and on a receiver with empty serialize output (the unused template) even
the receiver's slot is untouched: a successful call allocates a fresh object,
seeded like the template's (empty) state, and returns its new reference. -/
theorem claim6_no_cross_contamination (h : Heap) (r : Nat) (k : Kind) (v : String)
    (s : SelState) (hr : h[r]? = some s) :
    (∀ i, i < h.length → i ≠ r → (applyAppendHeap h r k v).1[i]? = h[i]?)
    ∧ (stringify s = "" → ∀ i, i < h.length → (applyAppendHeap h r k v).1[i]? = h[i]?)
    ∧ (stringify s = "" → ∀ n, (applyAppendHeap h r k v).2 = Except.ok n →
        n = h.length ∧ (applyAppendHeap h r k v).1[n]? = some (processElement emptySel k v).1) := by
  unfold applyAppendHeap
  simp only [hr]
  by_cases hdg : dupGuard s k = true
  · rw [if_pos hdg]
    exact ⟨fun i _ _ => rfl, fun _ i _ => rfl, fun _ n hn => Except.noConfusion hn⟩
  · rw [if_neg hdg]
    by_cases hse : stringify s = ""
    · rw [if_neg (by simp [hse])]
      rcases hpe : processElement emptySel k v with ⟨s1, e⟩
      cases e with
      | none =>
        simp only [hpe]
        refine ⟨?_, ?_, ?_⟩
        · intro i hi _
          rw [List.getElem?_append, if_pos hi]
        · intro _ i hi
          rw [List.getElem?_append, if_pos hi]
        · intro _ n hn
          have hn' : h.length = n := by
            simpa using hn
          constructor
          · exact hn'.symm
          · rw [← hn', List.getElem?_concat_length]
      | some m =>
        simp only [hpe]
        simp
    · rw [if_pos hse]
      rcases hpe : processElement s k v with ⟨s1, e⟩
      cases e with
      | none =>
        simp only [hpe]
        refine ⟨?_, ?_, ?_⟩
        · intro i _ hir
          exact List.getElem?_set_ne (Ne.symm hir)
        · intro hc
          exact absurd hc hse
        · intro hc
          exact absurd hc hse
      | some m =>
        simp only [hpe]
        refine ⟨?_, ?_, ?_⟩
        · intro i _ hir
          exact List.getElem?_set_ne (Ne.symm hir)
        · intro hc
          exact absurd hc hse
        · intro hc
          exact absurd hc hse

/-- Witness for claim C6's theorem: an append on the template (slot 0 of a
one-object heap) leaves the template slot unchanged. -/
theorem claim6_no_cross_contamination_witness :
    (applyAppendHeap [emptySel] 0 Kind.element "a").1[0]? = ([emptySel] : Heap)[0]? :=
  (claim6_no_cross_contamination [emptySel] 0 Kind.element "a" emptySel rfl).2.1
    stringifyEmpty 0 (by decide)

/-- Claim C7, counterexample: a failed out-of-order append does not leave the
receiver untouched. After `class('x')` the receiver serializes to `.x`; the
failing `element('div')` raises the order error but stores the fragment first,
so the receiver then serializes to `div.x`. -/
theorem claim7_counterexample :
    runChain emptySel [(Kind.cls, "x")]
      = Except.ok { elementStr := "", idStr := "", classesStr := ".x", attrStr := "",
                    pseudoClassesStr := "", pseudoElementStr := "", partsOrder := [Kind.cls] }
    ∧ stringify { elementStr := "", idStr := "", classesStr := ".x", attrStr := "",
                  pseudoClassesStr := "", pseudoElementStr := "", partsOrder := [Kind.cls] }
      = ".x"
    ∧ append { elementStr := "", idStr := "", classesStr := ".x", attrStr := "",
               pseudoClassesStr := "", pseudoElementStr := "", partsOrder := [Kind.cls] }
        Kind.element "div"
      = Except.error rangeExeption
    ∧ stringify (receiverAfter { elementStr := "", idStr := "", classesStr := ".x",
                                 attrStr := "", pseudoClassesStr := "", pseudoElementStr := "",
                                 partsOrder := [Kind.cls] } Kind.element "div")
      = "div.x"
    ∧ (".x" : String) ≠ "div.x" := by
  decide

/-- Claim C7 (amended): a failed append with the duplicate error leaves the
receiver untouched, and so does any append on a receiver with empty serialize
output (it works on a discarded fresh object); but an append on a receiver with
accumulated output mutates the receiver to the `processElement` result — the
rendered fragment and the order-tracking update are applied even when the order
check then raises, so a later serialize reflects the partial application. -/
theorem claim7_failed_append_state (s : SelState) (k : Kind) (v : String) :
    (dupGuard s k = true →
      receiverAfter s k v = s ∧ append s k v = Except.error occurExeption)
    ∧ (stringify s = "" → receiverAfter s k v = s)
    ∧ (dupGuard s k = false → stringify s ≠ "" →
        receiverAfter s k v = (processElement s k v).1) := by
  refine ⟨?_, ?_, ?_⟩
  · intro hdg
    constructor
    · unfold receiverAfter
      rw [applyPartDup s k v hdg]
    · unfold append
      rw [applyPartDup s k v hdg]
  · intro hse
    exact applyPartReceiverEmpty s k v hse
  · intro hdg hse
    exact applyPartMutReceiver s k v hdg hse

/-- Witness for claim C7's theorem at a duplicate failure: the receiver is
unchanged and the duplicate error is raised. -/
theorem claim7_failed_append_state_witness :
    receiverAfter { elementStr := "div", idStr := "", classesStr := "", attrStr := "",
                    pseudoClassesStr := "", pseudoElementStr := "",
                    partsOrder := [Kind.element] } Kind.element "span"
      = { elementStr := "div", idStr := "", classesStr := "", attrStr := "",
          pseudoClassesStr := "", pseudoElementStr := "", partsOrder := [Kind.element] }
    ∧ append { elementStr := "div", idStr := "", classesStr := "", attrStr := "",
               pseudoClassesStr := "", pseudoElementStr := "",
               partsOrder := [Kind.element] } Kind.element "span"
      = Except.error occurExeption :=
  (claim7_failed_append_state _ Kind.element "span").1 (by decide)

/-- Claim C8, counterexample: the attribute descriptor is not split on the first
`=` only. `attr('a=b=c')` renders `[a=b]` — the text after the second `=` is
dropped — while splitting on the first `=` would render `[a=b=c]`. -/
theorem claim8_counterexample :
    runShow [(Kind.attr, "a=b=c")] = Except.ok "[a=b]"
    ∧ ("[a=b]" : String) ≠ "[" ++ "a=b=c" ++ "]" := by
  decide

/-- Claim C8 (amended): `attr` splits the descriptor on every `=` and keeps only
the first two pieces, rendering `[key=value]` where `key` is the text before
the first `=` and `value` the text between the first and second `=` (text after
a second `=` is dropped; a missing `=` yields the literal text `undefined`);
successive attribute appends accumulate inside a single bracket pair joined by
single spaces; and the documented example serializes as stated. -/
theorem claim8_attr_format (v1 v2 : String) :
    append emptySel Kind.attr v1
      = Except.ok { elementStr := "", idStr := "", classesStr := "",
                    attrStr := "[" ++ renderAttrPiece v1 ++ "]",
                    pseudoClassesStr := "", pseudoElementStr := "",
                    partsOrder := [Kind.attr] }
    ∧ runChain emptySel [(Kind.attr, v1), (Kind.attr, v2)]
      = Except.ok { elementStr := "", idStr := "", classesStr := "",
                    attrStr := "[" ++ renderAttrPiece v1 ++ " " ++ renderAttrPiece v2 ++ "]",
                    pseudoClassesStr := "", pseudoElementStr := "",
                    partsOrder := [Kind.attr] }
    ∧ runShow [(Kind.element, "a"), (Kind.attr, "href$=\".png\""), (Kind.pseudoClass, "focus")]
      = Except.ok "a[href$=\".png\"]:focus" := by
  have h1 : append emptySel Kind.attr v1
      = Except.ok ({ elementStr := "", idStr := "", classesStr := "",
                     attrStr := "[" ++ renderAttrPiece v1 ++ "]",
                     pseudoClassesStr := "", pseudoElementStr := "",
                     partsOrder := [Kind.attr] } : SelState) := by
    unfold append
    rw [appendAttrFirst v1]
  have h2 : append ({ elementStr := "", idStr := "", classesStr := "",
                      attrStr := "[" ++ renderAttrPiece v1 ++ "]",
                      pseudoClassesStr := "", pseudoElementStr := "",
                      partsOrder := [Kind.attr] } : SelState) Kind.attr v2
      = Except.ok ({ elementStr := "", idStr := "", classesStr := "",
                     attrStr := "[" ++ renderAttrPiece v1 ++ " " ++ renderAttrPiece v2 ++ "]",
                     pseudoClassesStr := "", pseudoElementStr := "",
                     partsOrder := [Kind.attr] } : SelState) := by
    unfold append
    rw [appendAttrSecond (renderAttrPiece v1) v2 (renderAttrPieceNe v1)]
  refine ⟨h1, ?_, by decide⟩
  simp [runChain, h1, h2]

/-- Claim C9, counterexample: the combine node's serialization is not lazy. The
node built from the chain `element('a')` captures `a + b`; mutating that
operand afterwards with `class('x')` (which returns the same, mutated object)
changes the operand's serialization to `a.x`, but the node still returns
`a + b`, not `a.x + b`. -/
theorem claim9_counterexample :
    runChain emptySel [(Kind.element, "a")]
      = Except.ok { elementStr := "a", idStr := "", classesStr := "", attrStr := "",
                    pseudoClassesStr := "", pseudoElementStr := "",
                    partsOrder := [Kind.element] }
    ∧ (combine (stringify { elementStr := "a", idStr := "", classesStr := "", attrStr := "",
                            pseudoClassesStr := "", pseudoElementStr := "",
                            partsOrder := [Kind.element] }) "+"
         (stringify { elementStr := "b", idStr := "", classesStr := "", attrStr := "",
                      pseudoClassesStr := "", pseudoElementStr := "",
                      partsOrder := [Kind.element] })).stringify
      = "a + b"
    ∧ append { elementStr := "a", idStr := "", classesStr := "", attrStr := "",
               pseudoClassesStr := "", pseudoElementStr := "",
               partsOrder := [Kind.element] } Kind.cls "x"
      = Except.ok (receiverAfter { elementStr := "a", idStr := "", classesStr := "",
                                   attrStr := "", pseudoClassesStr := "",
                                   pseudoElementStr := "",
                                   partsOrder := [Kind.element] } Kind.cls "x")
    ∧ stringify (receiverAfter { elementStr := "a", idStr := "", classesStr := "",
                                 attrStr := "", pseudoClassesStr := "", pseudoElementStr := "",
                                 partsOrder := [Kind.element] } Kind.cls "x")
      = "a.x"
    ∧ ("a + b" : String)
      ≠ stringify (receiverAfter { elementStr := "a", idStr := "", classesStr := "",
                                   attrStr := "", pseudoClassesStr := "",
                                   pseudoElementStr := "",
                                   partsOrder := [Kind.element] } Kind.cls "x")
        ++ " + "
        ++ stringify { elementStr := "b", idStr := "", classesStr := "", attrStr := "",
                       pseudoClassesStr := "", pseudoElementStr := "",
                       partsOrder := [Kind.element] } := by
  decide

/-- Claim C9 (amended): `combine` reads its operands and writes nothing (the heap
is returned unchanged, so the operands are never mutated), and the resulting
node stores the string computed eagerly at join time from the operands'
serializations at that moment; the node's serialize returns that stored string,
so later mutation of an operand is not reflected. -/
theorem claim9_combine_eager (h : Heap) (r1 r2 : Nat) (tok : String)
    (s1 s2 : SelState) (h1 : h[r1]? = some s1) (h2 : h[r2]? = some s2) :
    (combineHeap h r1 tok r2).1 = h
    ∧ (combineHeap h r1 tok r2).2 = some (combine (stringify s1) tok (stringify s2))
    ∧ (combine (stringify s1) tok (stringify s2)).stringify
        = stringify s1 ++ " " ++ tok ++ " " ++ stringify s2 := by
  unfold combineHeap
  simp only [h1, h2]
  exact ⟨trivial, trivial, rfl⟩

/-- Witness for claim C9's theorem on a one-object heap. -/
theorem claim9_combine_eager_witness :
    (combineHeap [emptySel] 0 "+" 0).1 = [emptySel]
    ∧ (combineHeap [emptySel] 0 "+" 0).2
        = some (combine (stringify emptySel) "+" (stringify emptySel)) :=
  ⟨(claim9_combine_eager [emptySel] 0 0 "+" emptySel emptySel rfl rfl).1,
   (claim9_combine_eager [emptySel] 0 0 "+" emptySel emptySel rfl rfl).2.1⟩

/-- Claim C10: an attribute descriptor containing no `=` does not raise:
`split('=')` yields a single piece, the destructured value is `undefined`, and
the fragment renders as `[descriptor=undefined]` — for example `attr('disabled')`
contributes `[disabled=undefined]`. -/
theorem claim10_attr_no_eq (v : String) (hv : ∀ c ∈ v.data, c ≠ '=') :
    renderAttrPiece v = v ++ "=undefined"
    ∧ append emptySel Kind.attr v
      = Except.ok { elementStr := "", idStr := "", classesStr := "",
                    attrStr := "[" ++ v ++ "=undefined]",
                    pseudoClassesStr := "", pseudoElementStr := "",
                    partsOrder := [Kind.attr] } := by
  have hsp : splitOnChar '=' v.data = [v.data] := splitOnCharNoSep '=' v.data hv
  have hp : renderAttrPiece v = v ++ "=undefined" := by
    unfold renderAttrPiece
    simp only [hsp]
  have hbr : "[" ++ (v ++ "=undefined") ++ "]" = "[" ++ v ++ "=undefined]" := by
    apply strEqOfData
    simp [strDataAppend]
  refine ⟨hp, ?_⟩
  unfold append
  rw [appendAttrFirst v]
  simp only [hp, hbr]

/-- Witness for claim C10's theorem at the descriptor `disabled`. -/
theorem claim10_attr_no_eq_witness :
    renderAttrPiece "disabled" = "disabled" ++ "=undefined"
    ∧ append emptySel Kind.attr "disabled"
      = Except.ok { elementStr := "", idStr := "", classesStr := "",
                    attrStr := "[" ++ "disabled" ++ "=undefined]",
                    pseudoClassesStr := "", pseudoElementStr := "",
                    partsOrder := [Kind.attr] } :=
  claim10_attr_no_eq "disabled" (by decide)

end CssSelectorBuilder
